import Mathlib

/-!
Verification development for the pdf_splitter program.

The program splits a PDF book into per-chapter files.  Its core logic is
embedded here as executable Lean definitions:

* string primitives model the Python string operations used by the source
  (`str.lower`, `str.strip`, `"x" in y` substring test, `str.split`,
  `" ".join`), operating on the character lists underlying `String`;
* font sizes carried by words are modelled as rationals; `round(x, 1)`
  is modelled as round-half-to-even at one decimal place;
* `find_offset_by_title_scan`, `extract_chapters_from_toc`,
  `map_starts_to_ranges`, `split_pdf_by_chapters`, the manual-offset
  fallback and the final offset projection of `__main__` are translated
  from the source one control-flow branch at a time.
-/

namespace PdfSplitter

/-- Model of Python `str.lower()`: lowercase every character. -/
def lowerStr (s : String) : String := String.mk (s.data.map Char.toLower)

/-- Model of Python `str.strip()`: drop whitespace from both ends. -/
def trimStr (s : String) : String :=
  String.mk (((s.data.dropWhile Char.isWhitespace).reverse.dropWhile Char.isWhitespace).reverse)

/-- Model of Python `" ".join(parts)`. -/
def joinSpaceSep : List String → String
  | [] => ""
  | [t] => t
  | t :: ts => t ++ " " ++ joinSpaceSep ts

/-- Substring search on character lists; `listContainsSub n h` holds when
`n` occurs contiguously inside `h` (Python `n in h` for strings). -/
def listContainsSub (needle : List Char) : List Char → Bool
  | [] => needle.isEmpty
  | c :: rest => needle.isPrefixOf (c :: rest) || listContainsSub needle rest

/-- Model of Python `needle in hay` on strings. -/
def containsStr (hay needle : String) : Bool := listContainsSub needle.data hay.data

/-- Model of Python `str.split()`: maximal runs of non-whitespace characters. -/
def wordsOfChars (cs : List Char) : List (List Char) :=
  (cs.foldr
    (fun c (acc : Bool × List (List Char)) =>
      if c.isWhitespace then (false, acc.2)
      else
        match acc with
        | (true, w :: ws) => (true, (c :: w) :: ws)
        | (_, ws) => (true, [c] :: ws))
    (false, [])).2

/-- Round-half-to-even to the nearest integer, the rounding mode of Python
`round`. -/
def roundHalfEven (x : ℚ) : ℤ :=
  if x - ⌊x⌋ < 1 / 2 then ⌊x⌋
  else if x - ⌊x⌋ > 1 / 2 then ⌊x⌋ + 1
  else if ⌊x⌋ % 2 = 0 then ⌊x⌋ else ⌊x⌋ + 1

/-- Model of Python `round(x, 1)`: round to one decimal place. -/
def round1 (x : ℚ) : ℚ := (roundHalfEven (x * 10) : ℚ) / 10

/-- The distinct values of `l` in order of first occurrence (the key order of
a Python `Counter` built from `l`). -/
def firstKeys (l : List ℚ) : List ℚ :=
  l.foldl (fun acc q => if q ∈ acc then acc else acc ++ [q]) []

/-- Model of `Counter(l).most_common(1)[0][0]`: a value of `l` with maximal
multiplicity; ties are broken by first occurrence, as `Counter` preserves
insertion order and `most_common` sorts stably by count. -/
def mostCommon (l : List ℚ) : ℚ :=
  match firstKeys l with
  | [] => 0
  | k :: ks => ks.foldl (fun best q => if l.count q > l.count best then q else best) k

/-- A word returned by `page.extract_words`: its text and, when present, its
font size (the `'size'` property). -/
structure PdfWord where
  text : String
  size : Option ℚ
deriving DecidableEq

/-- A physical page as seen by the scanner: its word list and the result of
`page.extract_text()`. -/
structure PdfPage where
  words : List PdfWord
  text : String
deriving DecidableEq

/-- `sized_words`: the words that carry the `'size'` property, with their
sizes (source line 105). -/
def sized_words (ws : List PdfWord) : List (String × ℚ) :=
  ws.filterMap (fun w => w.size.map (fun s => (w.text, s)))

/-- `large_size_threshold = baseline_size * 1.5` (source line 114). -/
def large_size_threshold (baseline : ℚ) : ℚ := baseline * (3 / 2)

/-- A word counts as large when its rounded size reaches the threshold
(source line 123: `word_size >= large_size_threshold`). -/
def isLarge (thr : ℚ) (w : String × ℚ) : Bool := thr ≤ round1 w.2

/-- One iteration of the block-aggregation loop of source lines 120-127:
the state is (completed blocks, current block). -/
def blockStep (thr : ℚ) (acc : List String × String) (w : String × ℚ) :
    List String × String :=
  if isLarge thr w then (acc.1, acc.2 ++ w.1 ++ " ")
  else if acc.2 ≠ "" then (acc.1 ++ [trimStr acc.2], "")
  else acc

/-- The trailing flush of source lines 129-130. -/
def blocksFinish (acc : List String × String) : List String :=
  if acc.2 ≠ "" then acc.1 ++ [trimStr acc.2] else acc.1

/-- `large_text_blocks` of source lines 116-130: greedy aggregation of
consecutive large-sized words into text blocks. -/
def large_text_blocks (thr : ℚ) (ws : List (String × ℚ)) : List String :=
  blocksFinish (ws.foldl (blockStep thr) ([], ""))

/-- The concatenation a run of large words contributes to its block: each
word text followed by one space (`current_block += word['text'] + " "`). -/
def joinSp : List String → String
  | [] => ""
  | t :: ts => t ++ " " ++ joinSp ts

/-- Model of `re.search(r"^\d+\.?\d*\s*(.*)$", t)`: when the string starts
with digits, strip the digit run, one optional dot, a further digit run and
following whitespace, returning the remainder (group 1); otherwise `none`. -/
def stripLeadingNum (cs : List Char) : Option (List Char) :=
  match cs with
  | [] => none
  | c :: _ =>
    if c.isDigit then
      let r1 := cs.dropWhile Char.isDigit
      let r2 :=
        match r1 with
        | '.' :: r => r.dropWhile Char.isDigit
        | _ => r1
      some (r2.dropWhile Char.isWhitespace)
    else none

/-- `clean_title` of source lines 58-59: the chapter title with the leading
numeral removed when present, stripped and lowercased. -/
def clean_title_of (chapter_title : String) : String :=
  match stripLeadingNum chapter_title.data with
  | some rest => lowerStr (trimStr (String.mk rest))
  | none => lowerStr (trimStr chapter_title)

/-- `search_key` of source line 66: the first (up to) five words of the
cleaned title, joined by single spaces. -/
def search_key_of (chapter_title : String) : String :=
  let clean := clean_title_of chapter_title
  let ws := (wordsOfChars clean.data).map String.mk
  joinSpaceSep (ws.take (min 5 ws.length))

/-- Block normalisation of source line 135:
`re.sub(r'[^\w\s]', '', block).lower()`. -/
def normalize_block (s : String) : String :=
  lowerStr (String.mk (s.data.filter (fun c => c.isAlphanum || c = '_' || c.isWhitespace)))

/-- `baseline_size` of source lines 110-111: the most common rounded word
size of the page. -/
def page_baseline (sw : List (String × ℚ)) : ℚ :=
  mostCommon (sw.map (fun w => round1 w.2))

/-- `title_found` of source lines 132-138: some large text block, once
normalised, contains the search key. -/
def page_title_found (search_key : String) (sw : List (String × ℚ)) : Bool :=
  let baseline := page_baseline sw
  let blocks := large_text_blocks (large_size_threshold baseline) sw
  blocks.any (fun b => containsStr (normalize_block b) search_key)

/-- `page_number_found` of source line 141: the raw page text contains the
page-number key. -/
def page_number_found (page_number_key : String) (p : PdfPage) : Bool :=
  containsStr p.text page_number_key

/-- The dual check of source line 144 together with the skip conditions of
lines 100-108: a page qualifies when it has size-bearing words, the title is
found in large text and the printed page number occurs in the raw text. -/
def page_qualifies (search_key page_number_key : String) (p : PdfPage) : Bool :=
  !(sized_words p.words).isEmpty &&
    (page_title_found search_key (sized_words p.words) &&
      page_number_found page_number_key p)

/-- `start_index = max(0, toc_end_file_page)` (source line 76). -/
def scan_start_index (toc_end_file_page : Int) : Nat :=
  (max 0 toc_end_file_page).toNat

/-- `scan_limit = min(start_index + 50, total_pages)` (source line 79). -/
def scan_limit_of (toc_end_file_page : Int) (total_pages : Nat) : Nat :=
  min (scan_start_index toc_end_file_page + 50) total_pages

/-- The page loop of source lines 86-151: `fuel` pages remain to scan,
`file_page` is the 1-indexed number of the next page.  Returns
`(calculated_offset, file_page)` for the first qualifying page. -/
def scanPages (search_key page_number_key : String) (printed_start_page : Int) :
    List PdfPage → Nat → Nat → Option (Int × Nat)
  | _, _, 0 => none
  | [], _, _ => none
  | p :: rest, file_page, fuel + 1 =>
    if p.words = [] then
      scanPages search_key page_number_key printed_start_page rest (file_page + 1) fuel
    else if sized_words p.words = [] then
      scanPages search_key page_number_key printed_start_page rest (file_page + 1) fuel
    else if page_title_found search_key (sized_words p.words) &&
        page_number_found page_number_key p then
      some ((file_page : Int) - printed_start_page, file_page)
    else
      scanPages search_key page_number_key printed_start_page rest (file_page + 1) fuel

/-- `find_offset_by_title_scan` of source lines 45-154, with the document
given as its page list. -/
def find_offset_by_title_scan (chapter_title : String) (printed_start_page : Int)
    (toc_end_file_page : Int) (pages : List PdfPage) : Option (Int × Nat) :=
  let clean_title := clean_title_of chapter_title
  if clean_title = "" then none
  else
    let search_key := search_key_of chapter_title
    let page_number_key := toString printed_start_page
    let start_index := scan_start_index toc_end_file_page
    let scan_limit := scan_limit_of toc_end_file_page pages.length
    scanPages search_key page_number_key printed_start_page
      (pages.drop start_index) (start_index + 1) (scan_limit - start_index)

/-- A match of the TOC regex `^([\d\.]+)\s*(.+?)[\s\.]+(\d+)$` on one line:
group 1 (chapter numeral), group 2 (title) and group 3 (printed page), the
latter already converted by `int(...)`. -/
structure TocMatch where
  num : String
  title : String
  page : Int
deriving DecidableEq

/-- `full_title_key = f"{chapter_number} {title}"` with both groups stripped
(source lines 252-257). -/
def toc_key (m : TocMatch) : String := trimStr m.num ++ " " ++ trimStr m.title

/-- The filter of source line 260: `len(title) > 5 and printed_page > 1`. -/
def toc_keep (m : TocMatch) : Bool := (trimStr m.title).length > 5 && m.page > 1

/-- One iteration of the accumulation loop of source lines 251-261; the
dictionary is an association list in insertion order. -/
def addTocMatch (acc : List (String × Int)) (m : TocMatch) : List (String × Int) :=
  if toc_keep m && acc.all (fun e => e.1 ≠ toc_key m) then
    acc ++ [(toc_key m, m.page)]
  else acc

/-- The accumulation over all scanned pages (source lines 244-261), each page
contributing its regex matches in order. -/
def extractCore (pages : List (List TocMatch)) : List (String × Int) :=
  pages.foldl (fun acc ms => ms.foldl addTocMatch acc) []

/-- Comparison by printed page, the key of `sorted(..., key=lambda item: item[1])`. -/
def pageLE (a b : String × Int) : Prop := a.2 ≤ b.2

instance : DecidableRel pageLE := fun a b => Int.decLe a.2 b.2

instance : IsTotal (String × Int) pageLE := ⟨fun a b => Int.le_total a.2 b.2⟩

instance : IsTrans (String × Int) pageLE := ⟨fun _ _ _ h1 h2 => le_trans h1 h2⟩

/-- `extract_chapters_from_toc` of source lines 211-277.  The input is the
outcome of opening the PDF: an exception message, or the regex matches of the
first pages.  The function scans at most `pages_to_scan` pages, and returns
the sorted chapter map (or `None`) together with the diagnostic message the
source prints on that path. -/
def extract_chapters_from_toc (openResult : Except String (List (List TocMatch)))
    (pages_to_scan : Nat) : Option (List (String × Int)) × String :=
  match openResult with
  | .error e => (none, "  -> ERROR during TOC extraction: " ++ e)
  | .ok pages =>
    let extracted := extractCore (pages.take pages_to_scan)
    if extracted.isEmpty then
      (none, "  -> FAILED: No numbered chapter patterns found in the scanned pages.")
    else
      (some (List.insertionSort pageLE extracted),
        "  -> SUCCESS! Found potential numbered chapter entries.")

/-- The loop body of `map_starts_to_ranges` (source lines 285-296) applied to
an already sorted item list. -/
def rangesOf (last_printed_page : Int) : List (String × Int) → List (String × Int × Int)
  | [] => []
  | (title, start_page) :: rest =>
    let end_page :=
      match rest with
      | [] => last_printed_page
      | (_, next_start_page) :: _ => next_start_page - 1
    (if start_page ≤ end_page then [(title, start_page, end_page)] else []) ++
      rangesOf last_printed_page rest

/-- `map_starts_to_ranges` of source lines 279-297. -/
def map_starts_to_ranges (chapter_starts : List (String × Int)) (last_printed_page : Int) :
    List (String × Int × Int) :=
  rangesOf last_printed_page (List.insertionSort pageLE chapter_starts)

/-- The character sanitisation of source line 335: keep alphanumerics,
spaces, underscores and hyphens; replace everything else by an underscore. -/
def sanitize_char (c : Char) : Char :=
  if c.isAlphanum || c = ' ' || c = '_' || c = '-' then c else '_'

/-- `safe_title_part` of source line 335: sanitise every character, then
strip the result. -/
def safe_title_part_of (clean_title : String) : String :=
  trimStr (String.mk (clean_title.data.map sanitize_char))

/-- Model of `re.match(r"^([\d\.]+)\s*(.*)$", t)` (source line 325): when the
string starts with a digit or dot, return the digit-and-dot run and the
remainder after following whitespace. -/
def numSplit (cs : List Char) : Option (List Char × List Char) :=
  match cs with
  | [] => none
  | c :: _ =>
    if c.isDigit || c = '.' then
      some (cs.takeWhile (fun d => d.isDigit || d = '.'),
        (cs.dropWhile (fun d => d.isDigit || d = '.')).dropWhile Char.isWhitespace)
    else none

/-- The filename construction of source lines 325-342. -/
def output_filename (title_with_num : String) : String :=
  let parts :=
    match numSplit title_with_num.data with
    | some (n, t) => (trimStr (String.mk n), trimStr (String.mk t))
    | none => ("", title_with_num)
  let safe_title_part := safe_title_part_of parts.2
  if parts.1 ≠ "" then parts.1 ++ "_" ++ safe_title_part ++ ".pdf"
  else safe_title_part ++ ".pdf"

/-- The validation of source line 347:
`file_start < 1 or file_end > total_pages or file_start > file_end`. -/
def invalid_range (total_pages file_start file_end : Int) : Bool :=
  file_start < 1 || file_end > total_pages || file_start > file_end

/-- An output file produced for one chapter. -/
structure WrittenFile where
  filename : String
  file_start : Int
  file_end : Int
deriving DecidableEq

/-- The chapter loop of `split_pdf_by_chapters` (source lines 322-376):
returns the written files and, separately, the chapters skipped with a
warning by the validation of line 347. -/
def split_pdf_by_chapters (total_pages : Int) :
    List (String × Int × Int) → List WrittenFile × List (String × Int × Int)
  | [] => ([], [])
  | (title_with_num, file_start, file_end) :: rest =>
    let r := split_pdf_by_chapters total_pages rest
    if invalid_range total_pages file_start file_end then
      (r.1, (title_with_num, file_start, file_end) :: r.2)
    else
      (⟨output_filename title_with_num, file_start, file_end⟩ :: r.1, r.2)

/-- The re-prompt loop of source lines 489-499.  Each element of `inputs` is
one user entry, already passed through `int(...)`: `none` is an entry that
raised `ValueError` on parsing.  Entries below 1 raise and are re-prompted;
the first accepted entry is returned.  `none` means every available entry was
rejected (the program would still be prompting). -/
def promptLoop : List (Option Int) → Option Int
  | [] => none
  | none :: rest => promptLoop rest
  | some v :: rest => if v < 1 then promptLoop rest else some v

/-- `MANUAL_FALLBACK_FILE_PAGE` of source lines 480-499: when the first
chapter is literally "1 Error Handling" with anchor printed page 3 the source
uses the hard-coded file page 27 and never prompts (the third conjunct of the
source condition, the string `"27"`, is always truthy); otherwise the user is
prompted. -/
def manual_fallback_file_page (first_chapter_title : String) (anchor_printed_page : Int)
    (inputs : List (Option Int)) : Option Int :=
  if first_chapter_title = "1 Error Handling" ∧ anchor_printed_page = 3 then some 27
  else promptLoop inputs

/-- `PAGE_OFFSET = MANUAL_FALLBACK_FILE_PAGE - anchor_printed_page`
(source line 502). -/
def manual_fallback_offset (first_chapter_title : String) (anchor_printed_page : Int)
    (inputs : List (Option Int)) : Option Int :=
  (manual_fallback_file_page first_chapter_title anchor_printed_page inputs).map
    (fun p => p - anchor_printed_page)

/-- Specification-side view of the prompt loop: the first entry that parses
and is at least 1. -/
def firstValidInput (inputs : List (Option Int)) : Option Int :=
  inputs.findSome? (fun i => i.bind (fun v => if v < 1 then none else some v))

/-- `last_printed_page = len(temp_reader.pages) - PAGE_OFFSET`
(source line 525). -/
def last_printed_page_of (total_pages : Nat) (page_offset : Int) : Int :=
  (total_pages : Int) - page_offset

/-- The offset application of source lines 533-537. -/
def apply_offset (ranges : List (String × Int × Int)) (page_offset : Int) :
    List (String × Int × Int) :=
  ranges.map (fun r => (r.1, r.2.1 + page_offset, r.2.2 + page_offset))

/-- `FILE_CHAPTER_MAP` of source lines 522-537: printed ranges built with the
estimated last printed page, projected through the offset. -/
def file_chapter_map (chapter_starts : List (String × Int)) (page_offset : Int)
    (total_pages : Nat) : List (String × Int × Int) :=
  apply_offset
    (map_starts_to_ranges chapter_starts (last_printed_page_of total_pages page_offset))
    page_offset

/-! Concrete fixtures used by the witness theorems. -/

/-- A synthetic page whose only large-font word is a chapter title, and whose
raw text does not contain the digit 3. -/
def pageTitleOnly : PdfPage :=
  ⟨[⟨"Introduction", some 12⟩, ⟨"body", some 8⟩, ⟨"text", some 8⟩], "no digits here"⟩

/-- A synthetic page with no words at all. -/
def pageBlank : PdfPage := ⟨[], "x"⟩

/-- A synthetic page whose words carry no size metadata. -/
def pageNoSizes : PdfPage := ⟨[⟨"w", none⟩], "t"⟩


/-! ### Helper lemmas -/

theorem promptLoop_eq_firstValidInput (inputs : List (Option Int)) :
    promptLoop inputs = firstValidInput inputs := by
  induction inputs with
  | nil => rfl
  | cons i rest ih =>
    cases i with
    | none => simpa [promptLoop, firstValidInput, List.findSome?_cons] using ih
    | some v =>
      by_cases hv : v < 1
      · simpa [promptLoop, firstValidInput, List.findSome?_cons, hv] using ih
      · simp [promptLoop, firstValidInput, List.findSome?_cons, hv]

theorem firstValidInput_ge_one (inputs : List (Option Int)) (v : Int)
    (h : firstValidInput inputs = some v) : 1 ≤ v := by
  induction inputs with
  | nil => simp [firstValidInput] at h
  | cons i rest ih =>
    cases i with
    | none => exact ih (by simpa [firstValidInput, List.findSome?_cons] using h)
    | some w =>
      by_cases hw : w < 1
      · exact ih (by simpa [firstValidInput, List.findSome?_cons, hw] using h)
      · obtain rfl : w = v := by
          simpa [firstValidInput, List.findSome?_cons, hw] using h
        omega

theorem failed_msg_ne_error_msg (e : String) :
    ("  -> FAILED: No numbered chapter patterns found in the scanned pages." : String) ≠
      "  -> ERROR during TOC extraction: " ++ e := by
  intro h
  have hd : ("  -> FAILED: No numbered chapter patterns found in the scanned pages." : String).data =
      ("  -> ERROR during TOC extraction: " : String).data ++ e.data := by
    rw [h, String.data_append]
  have h5 := congrArg (fun l => l[5]?) hd
  simp only at h5
  rw [List.getElem?_append_left (by decide)] at h5
  have hF : ("  -> FAILED: No numbered chapter patterns found in the scanned pages." : String).data[5]? = some 'F' := by decide
  have hE : ("  -> ERROR during TOC extraction: " : String).data[5]? = some 'E' := by decide
  rw [hF, hE] at h5
  simp at h5

/-! ### C9: filename sanitization -/

/-- C9 counterexample: the source keeps spaces, so the title
"Error Handling: Part 1" does not sanitize to "Error_Handling__Part_1". -/
theorem C9_counterexample :
    safe_title_part_of "Error Handling: Part 1" ≠ "Error_Handling__Part_1" := by decide

/-- C9 (amended): sanitization keeps alphanumerics, spaces, underscores, and
hyphens and replaces every other character with an underscore, applied
character by character and followed by a strip; in particular the title
"Error Handling: Part 1" sanitizes to "Error Handling_ Part 1" (colon
replaced with underscore, spaces kept, case and existing underscores and
hyphens preserved). -/
theorem C9_sanitization :
    (∀ c : Char, (c.isAlphanum || c = ' ' || c = '_' || c = '-') = true →
      sanitize_char c = c) ∧
    (∀ c : Char, (c.isAlphanum || c = ' ' || c = '_' || c = '-') = false →
      sanitize_char c = '_') ∧
    (∀ s : String, safe_title_part_of s = trimStr (String.mk (s.data.map sanitize_char))) ∧
    safe_title_part_of "Error Handling: Part 1" = "Error Handling_ Part 1" := by
  refine ⟨fun c hc => ?_, fun c hc => ?_, fun s => rfl, by decide⟩
  · simp [sanitize_char, hc]
  · simp [sanitize_char, hc]

/-- C9 witness: the sanitization rule evaluated at a kept and at a replaced
character. -/
theorem C9_witness :
    (('a'.isAlphanum || 'a' = ' ' || 'a' = '_' || 'a' = '-') = true ∧ sanitize_char 'a' = 'a') ∧
    ((':'.isAlphanum || ':' = ' ' || ':' = '_' || ':' = '-') = false ∧ sanitize_char ':' = '_') :=
  ⟨⟨by decide, C9_sanitization.1 'a' (by decide)⟩,
   ⟨by decide, C9_sanitization.2.1 ':' (by decide)⟩⟩

/-! ### C5: manual offset fallback -/

/-- C5 counterexample: for the first chapter "1 Error Handling" with anchor
printed page 3, the fallback consumes no user input at all and still produces
the offset 24 from the hard-coded file page 27, so it does not require a
human-supplied physical page number. -/
theorem C5_counterexample :
    manual_fallback_file_page "1 Error Handling" 3 [] = some 27 ∧
    manual_fallback_offset "1 Error Handling" 3 [] = some 24 := by
  constructor <;> decide

/-- C5 (amended): unless the anchor is the hard-coded case (first chapter
"1 Error Handling" with printed page 3, where file page 27 is used without
prompting), the fallback requires a human-supplied physical page number,
computes offset = supplied physical page − anchor printed page, and rejects
integer input below 1 (and unparsable input) by re-prompting: the accepted
value is the first valid entry and is always at least 1. -/
theorem C5_manual_fallback :
    (∀ (t : String) (a : Int) (inputs : List (Option Int)),
      ¬(t = "1 Error Handling" ∧ a = 3) →
      manual_fallback_offset t a inputs =
        (firstValidInput inputs).map (fun p => p - a)) ∧
    (∀ (t : String) (a : Int), ¬(t = "1 Error Handling" ∧ a = 3) →
      manual_fallback_offset t a [] = none) ∧
    (∀ (inputs : List (Option Int)) (v : Int), firstValidInput inputs = some v → 1 ≤ v) := by
  have h1 : ∀ (t : String) (a : Int) (inputs : List (Option Int)),
      ¬(t = "1 Error Handling" ∧ a = 3) →
      manual_fallback_offset t a inputs = (firstValidInput inputs).map (fun p => p - a) := by
    intro t a inputs h
    rw [manual_fallback_offset, manual_fallback_file_page, if_neg h, promptLoop_eq_firstValidInput]
  exact ⟨h1, fun t a h => by rw [h1 t a [] h]; rfl, firstValidInput_ge_one⟩

/-- C5 witness: with a non-hard-coded anchor, the rejected entries 0 and an
unparsable entry are skipped and the first valid entry 30 gives offset 27. -/
theorem C5_witness :
    ¬(("x" : String) = "1 Error Handling" ∧ (3 : Int) = 3) ∧
    manual_fallback_offset "x" 3 [some 0, none, some 30] = some 27 :=
  ⟨by decide, by rw [C5_manual_fallback.1 "x" 3 [some 0, none, some 30] (by decide)]; decide⟩

/-! ### C3: splitter validation -/

/-- C3: every chapter whose range fails the validation
`file_start < 1 or file_end > total_pages or file_start > file_end` is
skipped (recorded with a warning) while the remaining chapters are still
processed; every chapter passing the validation is written as exactly one
output file. -/
theorem C3_splitter_skips_invalid :
    (∀ (total : Int) (chapters : List (String × Int × Int)),
      (split_pdf_by_chapters total chapters).1 =
        (chapters.filter (fun c => !invalid_range total c.2.1 c.2.2)).map
          (fun c => ⟨output_filename c.1, c.2.1, c.2.2⟩)) ∧
    (∀ (total : Int) (chapters : List (String × Int × Int)),
      (split_pdf_by_chapters total chapters).2 =
        chapters.filter (fun c => invalid_range total c.2.1 c.2.2)) ∧
    (∀ (total : Int) (c : String × Int × Int) (rest : List (String × Int × Int)),
      invalid_range total c.2.1 c.2.2 = true →
      split_pdf_by_chapters total (c :: rest) =
        ((split_pdf_by_chapters total rest).1, c :: (split_pdf_by_chapters total rest).2)) ∧
    (∀ (total fs fe : Int),
      invalid_range total fs fe = true ↔ (fs < 1 ∨ fe > total ∨ fs > fe)) := by
  refine ⟨fun total chapters => ?_, fun total chapters => ?_, fun total c rest hc => ?_,
    fun total fs fe => ?_⟩
  · induction chapters with
    | nil => rfl
    | cons c rest ih =>
      obtain ⟨t, fs, fe⟩ := c
      by_cases h : invalid_range total fs fe = true
      · simp [split_pdf_by_chapters, h, List.filter_cons, ih]
      · rw [Bool.not_eq_true] at h
        simp [split_pdf_by_chapters, h, List.filter_cons, ih]
  · induction chapters with
    | nil => rfl
    | cons c rest ih =>
      obtain ⟨t, fs, fe⟩ := c
      by_cases h : invalid_range total fs fe = true
      · simp [split_pdf_by_chapters, h, List.filter_cons, ih]
      · rw [Bool.not_eq_true] at h
        simp [split_pdf_by_chapters, h, List.filter_cons, ih]
  · obtain ⟨t, fs, fe⟩ := c
    simp only at hc
    simp [split_pdf_by_chapters, hc]
  · simp only [invalid_range, Bool.or_eq_true, decide_eq_true_eq]
    tauto

/-- C3 witness: an out-of-bounds chapter is skipped with a warning while the
following chapter is still written. -/
theorem C3_witness :
    invalid_range 40 ("1 chA", (13 : Int), (59 : Int)).2.1 ("1 chA", (13 : Int), (59 : Int)).2.2 = true ∧
    split_pdf_by_chapters 40 [("1 chA", 13, 59), ("2 ok", 1, 2)] =
      ((split_pdf_by_chapters 40 [("2 ok", 1, 2)]).1,
        ("1 chA", 13, 59) :: (split_pdf_by_chapters 40 [("2 ok", 1, 2)]).2) :=
  ⟨by decide,
   C3_splitter_skips_invalid.2.2.1 40 ("1 chA", 13, 59) [("2 ok", 1, 2)] (by decide)⟩

/-! ### C8: no-entries outcome of the TOC extractor -/

/-- C8 counterexample: the returned value alone does not distinguish the
no-entries outcome from the error outcome — the extractor returns `None` in
both cases (an unreadable file is caught and also yields `None`). -/
theorem C8_counterexample :
    (extract_chapters_from_toc (.ok [[⟨"1", "abc", 3⟩]]) 15).1 =
      (extract_chapters_from_toc (.error "unreadable file") 15).1 := by decide

/-- C8 (amended): when the scanned pages yield zero matching entries, the
extractor returns the value `none` together with the FAILED diagnostic (it
does not raise, so the program does not crash); an error while reading the
file also returns `none`, so the two outcomes differ only in their printed
diagnostic message, not in the returned value. -/
theorem C8_no_entries_outcome :
    ∀ (pages : List (List TocMatch)) (n : Nat) (e : String),
      extractCore (pages.take n) = [] →
      extract_chapters_from_toc (.ok pages) n =
        (none, "  -> FAILED: No numbered chapter patterns found in the scanned pages.") ∧
      (extract_chapters_from_toc (.error e) n).1 = none ∧
      extract_chapters_from_toc (.ok pages) n ≠ extract_chapters_from_toc (.error e) n := by
  intro pages n e h
  have hok : extract_chapters_from_toc (.ok pages) n =
      (none, "  -> FAILED: No numbered chapter patterns found in the scanned pages.") := by
    simp [extract_chapters_from_toc, h]
  refine ⟨hok, rfl, ?_⟩
  rw [hok]
  intro hcontra
  exact failed_msg_ne_error_msg e (congrArg Prod.snd hcontra)

/-- C8 witness: a page whose only match has a too-short title produces the
no-entries outcome, which differs from the error outcome. -/
theorem C8_witness :
    extractCore ([[⟨"1", "abc", 3⟩]].take 15) = [] ∧
    (extract_chapters_from_toc (.ok [[⟨"1", "abc", 3⟩]]) 15 =
        (none, "  -> FAILED: No numbered chapter patterns found in the scanned pages.") ∧
      (extract_chapters_from_toc (.error "boom") 15).1 = none ∧
      extract_chapters_from_toc (.ok [[⟨"1", "abc", 3⟩]]) 15 ≠
        extract_chapters_from_toc (.error "boom") 15) :=
  ⟨by decide, C8_no_entries_outcome [[⟨"1", "abc", 3⟩]] 15 "boom" (by decide)⟩

/-! ### C2 and C10 counterexamples -/

/-- C2 counterexample: two chapters sharing start page 5 are an input of
length 2 for which the mapper produces only one range, so the mapper does not
always produce exactly N ranges. -/
theorem C2_counterexample :
    ([("a", 5), ("b", 5)] : List (String × Int)).length = 2 ∧
    (map_starts_to_ranges [("a", 5), ("b", 5)] 10).length = 1 := by
  constructor <;> decide

/-- C10 counterexample: with starts 3 and 50, offset 10 and 40 physical
pages, the last printed page estimate is 30, chapter "2 chB" is dropped by
the mapper, and the final projected range ends at 59 ≠ 40; it is then skipped
by the `file_end > total_pages` validation, so the final chapter's file_end
does not always equal the total page count and the final range can be skipped
by that check. -/
theorem C10_counterexample :
    file_chapter_map [("1 chA", 3), ("2 chB", 50)] 10 40 = [("1 chA", 13, 59)] ∧
    ((59 : Int) ≠ (40 : Int)) ∧
    invalid_range 40 13 59 = true ∧
    (split_pdf_by_chapters 40 (file_chapter_map [("1 chA", 3), ("2 chB", 50)] 10 40)).1 = [] := by
  refine ⟨by decide, by decide, by decide, by decide⟩

/-! ### Helper lemmas for the font-size analysis (C7) -/

theorem length_dropWhile_le {α : Type} (p : α → Bool) (l : List α) :
    (l.dropWhile p).length ≤ l.length := by
  induction l with
  | nil => simp [List.dropWhile]
  | cons a l ih =>
    rw [List.dropWhile_cons]
    split
    · exact Nat.le_succ_of_le ih
    · exact Nat.le_refl _

theorem dropWhile_head_false {α : Type} (p : α → Bool) :
    ∀ (l : List α) (x : α) (xs : List α), l.dropWhile p = x :: xs → p x = false := by
  intro l
  induction l with
  | nil => intro x xs h; simp [List.dropWhile] at h
  | cons a l ih =>
    intro x xs h
    rw [List.dropWhile_cons] at h
    by_cases ha : p a = true
    · rw [if_pos ha] at h
      exact ih x xs h
    · rw [Bool.not_eq_true] at ha
      rw [if_neg (by simp [ha])] at h
      injection h with h1 _
      rw [← h1]
      exact ha

theorem joinSp_ne_empty (t : String) (ts : List String) : joinSp (t :: ts) ≠ "" := by
  intro h
  have h1 := congrArg String.length h
  simp only [joinSp, String.length_append] at h1
  have h2 : (" " : String).length = 1 := rfl
  have h3 : ("" : String).length = 0 := rfl
  rw [h2, h3] at h1
  omega

theorem foldl_blockStep_absorb (thr : ℚ) :
    ∀ (run : List (String × ℚ)) (acc : List String × String) (ws : List (String × ℚ)),
      (∀ w ∈ run, isLarge thr w = true) →
      List.foldl (blockStep thr) acc (run ++ ws) =
        List.foldl (blockStep thr) (acc.1, acc.2 ++ joinSp (run.map Prod.fst)) ws := by
  intro run
  induction run with
  | nil => intro acc ws _; simp [joinSp, String.append_empty]
  | cons w run ih =>
    intro acc ws hall
    have hw : isLarge thr w = true := hall w (List.mem_cons_self _ _)
    have hstep : blockStep thr acc w = (acc.1, acc.2 ++ w.1 ++ " ") := by
      simp [blockStep, hw]
    rw [List.cons_append, List.foldl_cons, hstep,
      ih _ ws (fun x hx => hall x (List.mem_cons_of_mem _ hx))]
    simp [joinSp, String.append_assoc]

theorem blocksFinish_foldl_shift (thr : ℚ) :
    ∀ (ws : List (String × ℚ)) (blocks : List String) (cur : String),
      blocksFinish (ws.foldl (blockStep thr) (blocks, cur)) =
        blocks ++ blocksFinish (ws.foldl (blockStep thr) ([], cur)) := by
  intro ws
  induction ws with
  | nil =>
    intro blocks cur
    by_cases hc : cur = ""
    · simp [blocksFinish, hc]
    · simp [blocksFinish, hc]
  | cons v rest ih =>
    intro blocks cur
    rw [List.foldl_cons, List.foldl_cons]
    by_cases hv : isLarge thr v = true
    · have h1 : blockStep thr (blocks, cur) v = (blocks, cur ++ v.1 ++ " ") := by
        simp [blockStep, hv]
      have h2 : blockStep thr ([], cur) v = ([], cur ++ v.1 ++ " ") := by
        simp [blockStep, hv]
      rw [h1, h2, ih]
    · rw [Bool.not_eq_true] at hv
      by_cases hc : cur = ""
      · have h1 : blockStep thr (blocks, cur) v = (blocks, cur) := by
          simp [blockStep, hv, hc]
        have h2 : blockStep thr ([], cur) v = ([], cur) := by
          simp [blockStep, hv, hc]
        rw [h1, h2, ih]
      · have h1 : blockStep thr (blocks, cur) v = (blocks ++ [trimStr cur], "") := by
          simp [blockStep, hv, hc]
        have h2 : blockStep thr ([], cur) v = ([trimStr cur], "") := by
          simp [blockStep, hv, hc]
        rw [h1, h2, ih, ih [trimStr cur] "", List.append_assoc]

theorem large_text_blocks_nil (thr : ℚ) : large_text_blocks thr [] = [] := rfl

theorem large_text_blocks_cons_small (thr : ℚ) (x : String × ℚ) (ws : List (String × ℚ))
    (hx : isLarge thr x = false) :
    large_text_blocks thr (x :: ws) = large_text_blocks thr ws := by
  rw [large_text_blocks, large_text_blocks, List.foldl_cons]
  have h1 : blockStep thr ([], "") x = ([], "") := by
    simp [blockStep, hx]
  rw [h1]

theorem large_text_blocks_cons_large (thr : ℚ) (w : String × ℚ) (ws : List (String × ℚ))
    (hw : isLarge thr w = true) :
    large_text_blocks thr (w :: ws) =
      trimStr (joinSp ((w :: ws.takeWhile (isLarge thr)).map Prod.fst)) ::
        large_text_blocks thr (ws.dropWhile (isLarge thr)) := by
  have hsplit : (w :: ws : List (String × ℚ)) =
      (w :: ws.takeWhile (isLarge thr)) ++ ws.dropWhile (isLarge thr) := by
    rw [List.cons_append, List.takeWhile_append_dropWhile]
  have hall : ∀ x ∈ w :: ws.takeWhile (isLarge thr), isLarge thr x = true := by
    intro x hx
    rcases List.mem_cons.mp hx with rfl | hx
    · exact hw
    · exact List.mem_takeWhile_imp hx
  rw [large_text_blocks, hsplit, foldl_blockStep_absorb thr _ _ _ hall]
  simp only [String.empty_append]
  rcases hdrop : ws.dropWhile (isLarge thr) with _ | ⟨x, rest2⟩
  · rw [List.foldl_nil]
    rw [blocksFinish, if_pos (by exact joinSp_ne_empty _ _)]
    rfl
  · have hx : isLarge thr x = false := dropWhile_head_false _ ws x rest2 hdrop
    rw [List.foldl_cons]
    have hstep : blockStep thr ([], joinSp ((w :: ws.takeWhile (isLarge thr)).map Prod.fst)) x =
        ([trimStr (joinSp ((w :: ws.takeWhile (isLarge thr)).map Prod.fst))], "") := by
      rw [blockStep, if_neg (by simp [hx]), if_pos (by simp [joinSp_ne_empty])]
      rfl
    rw [hstep, blocksFinish_foldl_shift, large_text_blocks_cons_small thr x rest2 hx]
    rfl

/-! ### Helper lemmas for the baseline mode (C7) -/

theorem mem_firstKeys_iff (l : List ℚ) (q : ℚ) : q ∈ firstKeys l ↔ q ∈ l := by
  have haux : ∀ (l acc : List ℚ) (q : ℚ),
      (q ∈ l.foldl (fun acc q => if q ∈ acc then acc else acc ++ [q]) acc ↔ q ∈ acc ∨ q ∈ l) := by
    intro l
    induction l with
    | nil => intro acc q; simp
    | cons x l ih =>
      intro acc q
      rw [List.foldl_cons]
      by_cases hx : x ∈ acc
      · rw [if_pos hx, ih]
        constructor
        · rintro (h | h)
          · exact Or.inl h
          · exact Or.inr (List.mem_cons_of_mem _ h)
        · rintro (h | h)
          · exact Or.inl h
          · rcases List.mem_cons.mp h with rfl | h
            · exact Or.inl hx
            · exact Or.inr h
      · rw [if_neg hx, ih]
        simp only [List.mem_append, List.mem_cons, List.mem_singleton]
        tauto
  simpa [firstKeys] using haux l [] q

theorem firstKeys_ne_nil {l : List ℚ} (h : l ≠ []) : firstKeys l ≠ [] := by
  obtain ⟨x, xs, rfl⟩ := List.exists_cons_of_ne_nil h
  intro hk
  have hx : x ∈ firstKeys (x :: xs) :=
    (mem_firstKeys_iff _ _).mpr (List.mem_cons_self x xs)
  rw [hk] at hx
  exact List.not_mem_nil x hx

theorem foldl_best_spec (l : List ℚ) :
    ∀ (ks : List ℚ) (k : ℚ),
      (ks.foldl (fun best q => if l.count q > l.count best then q else best) k ∈ k :: ks) ∧
      l.count k ≤
        l.count (ks.foldl (fun best q => if l.count q > l.count best then q else best) k) ∧
      (∀ q ∈ ks,
        l.count q ≤
          l.count (ks.foldl (fun best q => if l.count q > l.count best then q else best) k)) := by
  intro ks
  induction ks with
  | nil =>
    intro k
    refine ⟨List.mem_cons_self _ _, Nat.le_refl _, ?_⟩
    intro q hq
    exact absurd hq (List.not_mem_nil q)
  | cons q0 ks ih =>
    intro k
    rw [List.foldl_cons]
    obtain ⟨h1, h2, h3⟩ := ih (if l.count q0 > l.count k then q0 else k)
    have hk' : l.count k ≤ l.count (if l.count q0 > l.count k then q0 else k) := by
      split
      · omega
      · exact Nat.le_refl _
    have hq0' : l.count q0 ≤ l.count (if l.count q0 > l.count k then q0 else k) := by
      split
      · exact Nat.le_refl _
      · omega
    refine ⟨?_, Nat.le_trans hk' h2, ?_⟩
    · rcases List.mem_cons.mp h1 with he | hm
      · rw [he]
        split
        · exact List.mem_cons_of_mem _ (List.mem_cons_self _ _)
        · exact List.mem_cons_self _ _
      · exact List.mem_cons_of_mem _ (List.mem_cons_of_mem _ hm)
    · intro q hq
      rcases List.mem_cons.mp hq with rfl | hm
      · exact Nat.le_trans hq0' h2
      · exact h3 q hm

theorem mostCommon_mode (l : List ℚ) (h : l ≠ []) :
    mostCommon l ∈ l ∧ ∀ q : ℚ, l.count q ≤ l.count (mostCommon l) := by
  rcases hk : firstKeys l with _ | ⟨k, ks⟩
  · exact absurd hk (firstKeys_ne_nil h)
  · have hm : mostCommon l =
        ks.foldl (fun best q => if l.count q > l.count best then q else best) k := by
      unfold mostCommon
      rw [hk]
    obtain ⟨h1, h2, h3⟩ := foldl_best_spec l ks k
    constructor
    · rw [hm]
      have hin : ks.foldl (fun best q => if l.count q > l.count best then q else best) k ∈
          firstKeys l := by
        rw [hk]
        exact h1
      exact (mem_firstKeys_iff l _).mp hin
    · intro q
      rw [hm]
      by_cases hq : q ∈ l
      · have hqk : q ∈ k :: ks := by
          rw [← hk]
          exact (mem_firstKeys_iff l q).mpr hq
        rcases List.mem_cons.mp hqk with rfl | hqs
        · exact h2
        · exact h3 q hqs
      · rw [List.count_eq_zero.mpr hq]
        exact Nat.zero_le _

theorem round1_intCast (n : ℤ) : round1 ((n : ℤ) : ℚ) = (n : ℚ) := by
  unfold round1 roundHalfEven
  have h1 : ((n : ℚ) * 10) = ((10 * n : ℤ) : ℚ) := by push_cast; ring
  rw [h1, Int.floor_intCast]
  norm_num

theorem scanPages_skip_unsized (sk pk : String) (printed : Int) (p : PdfPage)
    (rest : List PdfPage) (fp fuel : Nat) (h : sized_words p.words = []) :
    scanPages sk pk printed (p :: rest) fp (fuel + 1) =
      scanPages sk pk printed rest (fp + 1) fuel := by
  by_cases hw : p.words = []
  · simp [scanPages, hw]
  · simp [scanPages, hw, h]

/-! ### C7: font-size analysis of a scanned page -/

/-- C7: for a page with size-bearing words, the baseline is a statistical
mode of the word sizes rounded to one decimal place (an occurring value of
maximal multiplicity); a word is large exactly when its rounded size is at
least 1.5 times the baseline; the candidate blocks satisfy the greedy
recursion: no blocks from no words, a large word opens a block made of it and
the following consecutive large words (ending at the first non-large word or
at end of page) followed by the blocks of the remainder, and a non-large word
contributes nothing; a page whose words carry no size metadata is skipped by
the scan loop rather than failing. -/
theorem C7_font_analysis :
    (∀ sw : List (String × ℚ), sw ≠ [] →
      page_baseline sw ∈ sw.map (fun w => round1 w.2) ∧
      ∀ q : ℚ, (sw.map (fun w => round1 w.2)).count q ≤
        (sw.map (fun w => round1 w.2)).count (page_baseline sw)) ∧
    (∀ (b : ℚ) (w : String × ℚ),
      isLarge (large_size_threshold b) w = true ↔ b * (3 / 2) ≤ round1 w.2) ∧
    (∀ thr : ℚ, large_text_blocks thr [] = []) ∧
    (∀ (thr : ℚ) (w : String × ℚ) (ws : List (String × ℚ)), isLarge thr w = true →
      large_text_blocks thr (w :: ws) =
        trimStr (joinSp ((w :: ws.takeWhile (isLarge thr)).map Prod.fst)) ::
          large_text_blocks thr (ws.dropWhile (isLarge thr))) ∧
    (∀ (thr : ℚ) (x : String × ℚ) (ws : List (String × ℚ)), isLarge thr x = false →
      large_text_blocks thr (x :: ws) = large_text_blocks thr ws) ∧
    (∀ (sk pk : String) (printed : Int) (p : PdfPage) (rest : List PdfPage) (fp fuel : Nat),
      sized_words p.words = [] →
      scanPages sk pk printed (p :: rest) fp (fuel + 1) =
        scanPages sk pk printed rest (fp + 1) fuel) := by
  refine ⟨?_, ?_, large_text_blocks_nil, large_text_blocks_cons_large,
    large_text_blocks_cons_small, scanPages_skip_unsized⟩
  · intro sw hsw
    have hmap : sw.map (fun w => round1 w.2) ≠ [] := by
      intro hcontra
      exact hsw (List.map_eq_nil_iff.mp hcontra)
    simpa [page_baseline] using mostCommon_mode _ hmap
  · intro b w
    simp [isLarge, large_size_threshold]

/-- C7 witness: the analysis applied to a one-word page, to concrete large
and non-large words, and to a page without size metadata. -/
theorem C7_witness :
    (([("Title", (12 : ℚ))] : List (String × ℚ)) ≠ [] ∧
      (page_baseline [("Title", (12 : ℚ))] ∈
          ([("Title", (12 : ℚ))] : List (String × ℚ)).map (fun w => round1 w.2) ∧
        ∀ q : ℚ,
          (([("Title", (12 : ℚ))] : List (String × ℚ)).map (fun w => round1 w.2)).count q ≤
            (([("Title", (12 : ℚ))] : List (String × ℚ)).map (fun w => round1 w.2)).count
              (page_baseline [("Title", (12 : ℚ))]))) ∧
    (isLarge 12 ("Title", (12 : ℚ)) = true ∧
      large_text_blocks 12 (("Title", (12 : ℚ)) :: []) =
        trimStr (joinSp ((("Title", (12 : ℚ)) ::
            List.takeWhile (isLarge 12) ([] : List (String × ℚ))).map Prod.fst)) ::
          large_text_blocks 12 (List.dropWhile (isLarge 12) ([] : List (String × ℚ)))) ∧
    (isLarge 12 ("body", (8 : ℚ)) = false ∧
      large_text_blocks 12 (("body", (8 : ℚ)) :: []) =
        large_text_blocks 12 ([] : List (String × ℚ))) ∧
    (sized_words pageNoSizes.words = [] ∧
      scanPages "a" "b" 0 [pageNoSizes, pageBlank] 1 2 = scanPages "a" "b" 0 [pageBlank] 2 1) := by
  have h12 : round1 ((12 : ℚ)) = 12 := by
    have h := round1_intCast 12
    norm_num at h
    exact h
  have h8 : round1 ((8 : ℚ)) = 8 := by
    have h := round1_intCast 8
    norm_num at h
    exact h
  have hlarge : isLarge 12 ("Title", (12 : ℚ)) = true := by simp [isLarge, h12]
  have hsmall : isLarge 12 ("body", (8 : ℚ)) = false := by
    simp [isLarge, h8]
    norm_num
  exact ⟨⟨by decide, C7_font_analysis.1 _ (by decide)⟩,
    ⟨hlarge, C7_font_analysis.2.2.2.1 12 ("Title", (12 : ℚ)) [] hlarge⟩,
    ⟨hsmall, C7_font_analysis.2.2.2.2.1 12 ("body", (8 : ℚ)) [] hsmall⟩,
    ⟨rfl, C7_font_analysis.2.2.2.2.2 "a" "b" 0 pageNoSizes [pageBlank] 1 1 rfl⟩⟩

/-! ### Helper lemmas for the title-anchored scan (C1, C6) -/

theorem scanPages_cons (sk pk : String) (printed : Int) (p : PdfPage) (rest : List PdfPage)
    (fp fuel : Nat) :
    scanPages sk pk printed (p :: rest) fp (fuel + 1) =
      if page_qualifies sk pk p = true then some ((fp : Int) - printed, fp)
      else scanPages sk pk printed rest (fp + 1) fuel := by
  by_cases hw : p.words = []
  · have hsw : sized_words p.words = [] := by rw [hw]; rfl
    have hq : page_qualifies sk pk p = false := by simp [page_qualifies, hsw]
    simp [scanPages, hw, hq]
  · by_cases hsw : sized_words p.words = []
    · have hq : page_qualifies sk pk p = false := by simp [page_qualifies, hsw]
      simp [scanPages, hw, hsw, hq]
    · obtain ⟨a, as, hsw2⟩ := List.exists_cons_of_ne_nil hsw
      have hq : page_qualifies sk pk p =
          (page_title_found sk (sized_words p.words) && page_number_found pk p) := by
        simp [page_qualifies, hsw2]
      by_cases hb : (page_title_found sk (sized_words p.words) && page_number_found pk p) = true
      · simp [scanPages, hw, hsw, hb, hq]
      · rw [Bool.not_eq_true] at hb
        simp [scanPages, hw, hsw, hb, hq]

theorem scanPages_eq_some_iff (sk pk : String) (printed : Int) :
    ∀ (fuel : Nat) (ps : List PdfPage) (fp : Nat) (off : Int) (rfp : Nat),
      (scanPages sk pk printed ps fp fuel = some (off, rfp) ↔
        ∃ j p, j < fuel ∧ ps[j]? = some p ∧ page_qualifies sk pk p = true ∧
          (∀ k q, k < j → ps[k]? = some q → page_qualifies sk pk q = false) ∧
          rfp = fp + j ∧ off = (fp : Int) + (j : Int) - printed) := by
  intro fuel
  induction fuel with
  | zero =>
    intro ps fp off rfp
    simp [scanPages]
  | succ fuel ih =>
    intro ps fp off rfp
    cases ps with
    | nil =>
      constructor
      · intro h
        simp [scanPages] at h
      · rintro ⟨j, p, _, hget, _⟩
        simp at hget
    | cons p rest =>
      rw [scanPages_cons]
      by_cases hq : page_qualifies sk pk p = true
      · rw [if_pos hq]
        constructor
        · intro h
          rw [Option.some.injEq, Prod.mk.injEq] at h
          obtain ⟨hoff, hrfp⟩ := h
          refine ⟨0, p, Nat.succ_pos _, by simp, hq, ?_, by omega, ?_⟩
          · intro k q hk _
            omega
          · push_cast
            omega
        · rintro ⟨j, q, hj, hget, hqual, hmin, hrfp, hoff⟩
          cases j with
          | zero =>
            simp only [List.getElem?_cons_zero, Option.some.injEq] at hget
            subst hget
            rw [Option.some.injEq, Prod.mk.injEq]
            constructor
            · push_cast at hoff
              omega
            · omega
          | succ j =>
            have h0 := hmin 0 p (Nat.succ_pos _) (by simp)
            rw [hq] at h0
            simp at h0
      · rw [if_neg hq]
        have hq' : page_qualifies sk pk p = false := by
          rw [← Bool.not_eq_true]
          exact hq
        rw [ih rest (fp + 1) off rfp]
        constructor
        · rintro ⟨j, q, hj, hget, hqual, hmin, hrfp, hoff⟩
          refine ⟨j + 1, q, Nat.succ_lt_succ hj, ?_, hqual, ?_, by omega, ?_⟩
          · rw [List.getElem?_cons_succ]
            exact hget
          · intro k r hk hr
            cases k with
            | zero =>
              simp only [List.getElem?_cons_zero, Option.some.injEq] at hr
              subst hr
              exact hq'
            | succ k =>
              refine hmin k r (Nat.lt_of_succ_lt_succ hk) ?_
              rw [List.getElem?_cons_succ] at hr
              exact hr
          · push_cast at hoff ⊢
            omega
        · rintro ⟨j, q, hj, hget, hqual, hmin, hrfp, hoff⟩
          cases j with
          | zero =>
            simp only [List.getElem?_cons_zero, Option.some.injEq] at hget
            subst hget
            rw [hq'] at hqual
            simp at hqual
          | succ j =>
            refine ⟨j, q, Nat.lt_of_succ_lt_succ hj, ?_, hqual, ?_, by omega, ?_⟩
            · rw [List.getElem?_cons_succ] at hget
              exact hget
            · intro k r hk hr
              refine hmin (k + 1) r (Nat.succ_lt_succ hk) ?_
              rw [List.getElem?_cons_succ]
              exact hr
            · push_cast at hoff ⊢
              omega

theorem scanPages_take (sk pk : String) (printed : Int) :
    ∀ (fuel : Nat) (ps : List PdfPage) (fp : Nat),
      scanPages sk pk printed ps fp fuel = scanPages sk pk printed (ps.take fuel) fp fuel := by
  intro fuel
  induction fuel with
  | zero => intro ps fp; simp [scanPages]
  | succ fuel ih =>
    intro ps fp
    cases ps with
    | nil => rfl
    | cons p rest =>
      rw [List.take_succ_cons, scanPages_cons, scanPages_cons]
      by_cases hq : page_qualifies sk pk p = true
      · rw [if_pos hq, if_pos hq]
      · rw [if_neg hq, if_neg hq, ih]

theorem scanPages_title_only_continue (sk pk : String) (printed : Int) (p : PdfPage)
    (rest : List PdfPage) (fp fuel : Nat)
    (hnum : page_number_found pk p = false) :
    scanPages sk pk printed (p :: rest) fp (fuel + 1) =
      scanPages sk pk printed rest (fp + 1) fuel := by
  rw [scanPages_cons, if_neg]
  simp [page_qualifies, hnum]

theorem find_offset_spec (ct : String) (printed toc : Int) (pages : List PdfPage)
    (off : Int) (rfp : Nat) :
    find_offset_by_title_scan ct printed toc pages = some (off, rfp) ↔
      (clean_title_of ct ≠ "" ∧
        scan_start_index toc < rfp ∧ rfp ≤ scan_limit_of toc pages.length ∧
        (∃ p, pages[rfp - 1]? = some p ∧
          page_qualifies (search_key_of ct) (toString printed) p = true) ∧
        (∀ k q, scan_start_index toc < k → k < rfp → pages[k - 1]? = some q →
          page_qualifies (search_key_of ct) (toString printed) q = false) ∧
        off = (rfp : Int) - printed) := by
  by_cases hct : clean_title_of ct = ""
  · simp [find_offset_by_title_scan, hct]
  · have hunfold : find_offset_by_title_scan ct printed toc pages =
        scanPages (search_key_of ct) (toString printed) printed
          (pages.drop (scan_start_index toc)) (scan_start_index toc + 1)
          (scan_limit_of toc pages.length - scan_start_index toc) := by
      rw [find_offset_by_title_scan, if_neg hct]
    rw [hunfold, scanPages_eq_some_iff]
    have hle : scan_limit_of toc pages.length ≤ scan_start_index toc + 50 :=
      min_le_left _ _
    constructor
    · rintro ⟨j, p, hj, hget, hqual, hmin, hrfp, hoff⟩
      rw [List.getElem?_drop] at hget
      refine ⟨hct, by omega, by omega, ⟨p, ?_, hqual⟩, ?_, by omega⟩
      · have he : rfp - 1 = scan_start_index toc + j := by omega
        rw [he]
        exact hget
      · intro k q hk1 hk2 hkget
        refine hmin (k - 1 - scan_start_index toc) q (by omega) ?_
        rw [List.getElem?_drop]
        have he : scan_start_index toc + (k - 1 - scan_start_index toc) = k - 1 := by omega
        rw [he]
        exact hkget
    · rintro ⟨-, h1, h2, ⟨p, hget, hqual⟩, hmin, hoff⟩
      refine ⟨rfp - 1 - scan_start_index toc, p, by omega, ?_, hqual, ?_, by omega, by omega⟩
      · rw [List.getElem?_drop]
        have he : scan_start_index toc + (rfp - 1 - scan_start_index toc) = rfp - 1 := by omega
        rw [he]
        exact hget
      · intro k q hk hkget
        refine hmin (scan_start_index toc + 1 + k) q (by omega) (by omega) ?_
        rw [List.getElem?_drop] at hkget
        have he : scan_start_index toc + 1 + k - 1 = scan_start_index toc + k := by omega
        rw [he]
        exact hkget

/-! ### C1: first qualifying page wins, dual check required -/

/-- C1: the title-anchored offset scanner returns `some (offset, file_page)`
exactly when `file_page` is the first page in the scan window on which BOTH
checks succeed (a normalized large-font block contains the title search key
AND the raw text contains the decimal string of the expected printed start
page), with offset equal to that page's 1-indexed physical index minus the
printed start page; and a page whose large-font title matches but whose
expected page number is absent is never returned — the loop continues with
the next page. -/
theorem C1_title_scan :
    (∀ (ct : String) (printed toc : Int) (pages : List PdfPage) (off : Int) (rfp : Nat),
      find_offset_by_title_scan ct printed toc pages = some (off, rfp) ↔
        (clean_title_of ct ≠ "" ∧
          scan_start_index toc < rfp ∧ rfp ≤ scan_limit_of toc pages.length ∧
          (∃ p, pages[rfp - 1]? = some p ∧
            page_qualifies (search_key_of ct) (toString printed) p = true) ∧
          (∀ k q, scan_start_index toc < k → k < rfp → pages[k - 1]? = some q →
            page_qualifies (search_key_of ct) (toString printed) q = false) ∧
          off = (rfp : Int) - printed)) ∧
    (∀ (sk pk : String) (printed : Int) (p : PdfPage) (rest : List PdfPage) (fp fuel : Nat),
      page_title_found sk (sized_words p.words) = true →
      page_number_found pk p = false →
      scanPages sk pk printed (p :: rest) fp (fuel + 1) =
        scanPages sk pk printed rest (fp + 1) fuel) :=
  ⟨find_offset_spec, fun sk pk printed p rest fp fuel _ hnum =>
    scanPages_title_only_continue sk pk printed p rest fp fuel hnum⟩

/-- C1 witness: a synthetic page whose large-font text contains the search
key but whose raw text lacks the expected page number is passed over and
scanning continues. -/
theorem C1_witness :
    page_title_found "introduction" (sized_words pageTitleOnly.words) = true ∧
    page_number_found "3" pageTitleOnly = false ∧
    scanPages "introduction" "3" 3 [pageTitleOnly] 6 1 =
      scanPages "introduction" "3" 3 [] 7 0 := by
  have h12 : round1 ((12 : ℚ)) = 12 := by
    have h := round1_intCast 12
    norm_num at h
    exact h
  have h8 : round1 ((8 : ℚ)) = 8 := by
    have h := round1_intCast 8
    norm_num at h
    exact h
  have hsw : sized_words pageTitleOnly.words =
      [("Introduction", (12 : ℚ)), ("body", 8), ("text", 8)] := rfl
  have hbase : page_baseline [("Introduction", (12 : ℚ)), ("body", 8), ("text", 8)] = 8 := by
    simp only [page_baseline, List.map, h12, h8]
    decide
  have hthr : large_size_threshold 8 = 12 := by
    unfold large_size_threshold
    norm_num
  have hblocks :
      large_text_blocks 12 [("Introduction", (12 : ℚ)), ("body", 8), ("text", 8)] =
        ["Introduction"] := by
    simp only [large_text_blocks, List.foldl, blockStep, isLarge, h12, h8, blocksFinish]
    decide
  have htitle : page_title_found "introduction" (sized_words pageTitleOnly.words) = true := by
    rw [page_title_found, hsw, hbase, hthr, hblocks]
    decide
  have hnum : page_number_found "3" pageTitleOnly = false := by decide
  exact ⟨htitle, hnum,
    C1_title_scan.2 "introduction" "3" 3 pageTitleOnly [] 6 0 htitle hnum⟩

/-! ### C6: bounded scan window -/

/-- C6: the scan window spans at most 50 pages past the TOC end page (or to
the end of the document), so the loop performs at most 50 page inspections —
the scan result only depends on the pages inside the window bound by the
fuel; and when no page in the window qualifies the scanner signals
recoverable failure by returning `none`. -/
theorem C6_bounded_window :
    (∀ (toc : Int) (total : Nat), scan_limit_of toc total - scan_start_index toc ≤ 50) ∧
    (∀ (sk pk : String) (printed : Int) (fuel : Nat) (ps : List PdfPage) (fp : Nat),
      scanPages sk pk printed ps fp fuel = scanPages sk pk printed (ps.take fuel) fp fuel) ∧
    (∀ (ct : String) (printed toc : Int) (pages : List PdfPage),
      (∀ k p, scan_start_index toc ≤ k → k < scan_limit_of toc pages.length →
        pages[k]? = some p →
        page_qualifies (search_key_of ct) (toString printed) p = false) →
      find_offset_by_title_scan ct printed toc pages = none) := by
  refine ⟨fun toc total => ?_, scanPages_take, fun ct printed toc pages hnone => ?_⟩
  · simp only [scan_limit_of]
    omega
  · rcases hres : find_offset_by_title_scan ct printed toc pages with _ | ⟨off, rfp⟩
    · rfl
    · exfalso
      rw [find_offset_spec] at hres
      obtain ⟨-, h1, h2, ⟨p, hget, hqual⟩, -, -⟩ := hres
      have hfalse := hnone (rfp - 1) p (by omega) (by omega) hget
      rw [hfalse] at hqual
      simp at hqual

/-- C6 witness: on a one-page document whose single page does not qualify,
the scan window is bounded by 50 and the scanner returns `none`. -/
theorem C6_witness :
    scan_limit_of 0 1 - scan_start_index 0 ≤ 50 ∧
    (∀ k p, scan_start_index 0 ≤ k → k < scan_limit_of 0 ([pageBlank] : List PdfPage).length →
      ([pageBlank] : List PdfPage)[k]? = some p →
      page_qualifies (search_key_of "1 Intro") (toString (3 : Int)) p = false) ∧
    find_offset_by_title_scan "1 Intro" 3 0 [pageBlank] = none := by
  have hyp : ∀ k p, scan_start_index 0 ≤ k →
      k < scan_limit_of 0 ([pageBlank] : List PdfPage).length →
      ([pageBlank] : List PdfPage)[k]? = some p →
      page_qualifies (search_key_of "1 Intro") (toString (3 : Int)) p = false := by
    intro k p _ hk hget
    have hlim : scan_limit_of 0 ([pageBlank] : List PdfPage).length = 1 := by decide
    rw [hlim] at hk
    have hk0 : k = 0 := by omega
    subst hk0
    simp only [List.getElem?_cons_zero, Option.some.injEq] at hget
    subst hget
    decide
  exact ⟨C6_bounded_window.1 0 1, hyp, C6_bounded_window.2.2 "1 Intro" 3 0 [pageBlank] hyp⟩

/-! ### Helper lemmas for the range mapper (C2, C10) -/

theorem rangesOf_spec (last : Int) :
    ∀ (l : List (String × Int)),
      l.Pairwise (fun a b => a.2 < b.2) → (∀ x ∈ l, x.2 ≤ last) →
      ((rangesOf last l).map (fun r => (r.1, r.2.1)) = l) ∧
      (∀ r ∈ rangesOf last l, r.2.1 ≤ r.2.2) ∧
      (rangesOf last l).Chain' (fun a b => a.2.2 < b.2.1) ∧
      (∀ p : Int, l ≠ [] →
        (((l.headD ("", 0)).2 ≤ p ∧ p ≤ last) ↔
          ∃ r ∈ rangesOf last l, r.2.1 ≤ p ∧ p ≤ r.2.2)) ∧
      (l ≠ [] → ∃ r, (rangesOf last l).getLast? = some r ∧ r.2.2 = last) := by
  intro l
  induction l with
  | nil =>
    intro _ _
    refine ⟨rfl, ?_, ?_, ?_, ?_⟩
    · intro r hr
      simp [rangesOf] at hr
    · simp [rangesOf]
    · intro p h
      exact absurd rfl h
    · intro h
      exact absurd rfl h
  | cons hd rest ih =>
    intro hp hb
    obtain ⟨t, s⟩ := hd
    have hp' : rest.Pairwise (fun a b => a.2 < b.2) := (List.pairwise_cons.mp hp).2
    have hhd : ∀ b ∈ rest, s < b.2 := (List.pairwise_cons.mp hp).1
    have hb' : ∀ x ∈ rest, x.2 ≤ last := fun x hx => hb x (List.mem_cons_of_mem _ hx)
    obtain ⟨ihA, ihB, ihC, ihD, ihE⟩ := ih hp' hb'
    cases rest with
    | nil =>
      have hs : s ≤ last := hb (t, s) (List.mem_cons_self _ _)
      have hr : rangesOf last [(t, s)] = [(t, s, last)] := by
        simp [rangesOf, hs]
      refine ⟨by simp [hr], ?_, by simp [hr], ?_, ?_⟩
      · intro r hrm
        rw [hr] at hrm
        rcases List.mem_cons.mp hrm with rfl | hrm
        · exact hs
        · exact absurd hrm (List.not_mem_nil r)
      · intro p _
        constructor
        · rintro ⟨h1, h2⟩
          exact ⟨(t, s, last), by simp [hr], h1, h2⟩
        · rintro ⟨r, hrm, hr1, hr2⟩
          rw [hr] at hrm
          rcases List.mem_cons.mp hrm with rfl | hrm
          · exact ⟨hr1, hr2⟩
          · exact absurd hrm (List.not_mem_nil r)
      · intro _
        exact ⟨(t, s, last), by simp [hr], rfl⟩
    | cons hd2 rest2 =>
      obtain ⟨t2, s2⟩ := hd2
      have hs2 : s < s2 := hhd (t2, s2) (List.mem_cons_self _ _)
      have hs2l : s2 ≤ last := hb' (t2, s2) (List.mem_cons_self _ _)
      have hle : s ≤ s2 - 1 := by omega
      have hr : rangesOf last ((t, s) :: (t2, s2) :: rest2) =
          (t, s, s2 - 1) :: rangesOf last ((t2, s2) :: rest2) := by
        simp [rangesOf, hle]
      obtain ⟨r0, R2, hR⟩ : ∃ r0 R2, rangesOf last ((t2, s2) :: rest2) = r0 :: R2 := by
        rcases hR : rangesOf last ((t2, s2) :: rest2) with _ | ⟨r0, R2⟩
        · rw [hR] at ihA
          simp at ihA
        · exact ⟨r0, R2, rfl⟩
      have hr0 : r0.2.1 = s2 := by
        rw [hR] at ihA
        simp only [List.map_cons] at ihA
        have h1 := (List.cons.injEq _ _ _ _).mp ihA
        exact congrArg Prod.snd h1.1
      refine ⟨?_, ?_, ?_, ?_, ?_⟩
      · rw [hr]
        simp only [List.map_cons, ihA]
      · intro r hrm
        rw [hr] at hrm
        rcases List.mem_cons.mp hrm with rfl | hrm
        · exact hle
        · exact ihB r hrm
      · rw [hr]
        refine List.chain'_cons'.mpr ⟨?_, ihC⟩
        intro y hy
        rw [hR] at hy
        simp only [List.head?_cons, Option.mem_def, Option.some.injEq] at hy
        subst hy
        simp only
        omega
      · intro p _
        constructor
        · rintro ⟨hsp, hpl⟩
          simp only [List.headD_cons] at hsp
          by_cases hpe : p ≤ s2 - 1
          · exact ⟨(t, s, s2 - 1), by rw [hr]; exact List.mem_cons_self _ _, hsp, hpe⟩
          · obtain ⟨r, hrm, hrb⟩ := (ihD p (by simp)).mp
              ⟨by simp only [List.headD_cons]; omega, hpl⟩
            exact ⟨r, by rw [hr]; exact List.mem_cons_of_mem _ hrm, hrb⟩
        · rintro ⟨r, hrm, hr1, hr2⟩
          rw [hr] at hrm
          rcases List.mem_cons.mp hrm with rfl | hrm
          · simp only at hr1 hr2
            exact ⟨hr1, by omega⟩
          · have hD := (ihD p (by simp)).mpr ⟨r, hrm, hr1, hr2⟩
            simp only [List.headD_cons] at hD
            simp only [List.headD_cons]
            exact ⟨by omega, hD.2⟩
      · intro _
        obtain ⟨rl, hrl, hrle⟩ := ihE (by simp)
        refine ⟨rl, ?_, hrle⟩
        rw [hr, hR, List.getLast?_cons_cons, ← hR]
        exact hrl

theorem sorted_starts_strict (starts : List (String × Int))
    (h1 : (starts.map (fun x => x.2)).Nodup) :
    (List.insertionSort pageLE starts).Pairwise (fun a b => a.2 < b.2) := by
  have hperm := List.perm_insertionSort pageLE starts
  have hsorted : List.Sorted pageLE (List.insertionSort pageLE starts) :=
    List.sorted_insertionSort pageLE starts
  have hnodup : ((List.insertionSort pageLE starts).map (fun x => x.2)).Nodup :=
    ((hperm.map _).nodup_iff).mpr h1
  have hpairne : (List.insertionSort pageLE starts).Pairwise (fun a b => a.2 ≠ b.2) :=
    List.pairwise_map.mp hnodup
  have hboth := List.Pairwise.and hsorted hpairne
  exact hboth.imp (fun h => lt_of_le_of_ne h.1 h.2)

theorem insertionSort_ne_nil (starts : List (String × Int)) (h0 : starts ≠ []) :
    List.insertionSort pageLE starts ≠ [] := by
  intro hc
  have hlen := (List.perm_insertionSort pageLE starts).length_eq
  rw [hc] at hlen
  exact h0 (List.eq_nil_of_length_eq_zero hlen.symm)

/-! ### C2: range mapper (amended) -/

/-- C2 (amended): for a nonempty list of N chapter start pages with pairwise
distinct start pages all at most the last printed page, the mapper produces
exactly N ranges, each with start ≤ end, consecutive ranges never overlap
(each range ends strictly before the next begins), and the union of the
ranges covers exactly the interval from the first (smallest) start page to
the last printed page, with no gaps.  Without the distinctness and bound
hypotheses ranges are dropped (see the counterexample), which is the
amendment the source forces. -/
theorem C2_range_mapper (starts : List (String × Int)) (last : Int)
    (h0 : starts ≠ []) (h1 : (starts.map (fun x => x.2)).Nodup)
    (h2 : ∀ x ∈ starts, x.2 ≤ last) :
    (map_starts_to_ranges starts last).length = starts.length ∧
    (∀ r ∈ map_starts_to_ranges starts last, r.2.1 ≤ r.2.2) ∧
    (map_starts_to_ranges starts last).Chain' (fun a b => a.2.2 < b.2.1) ∧
    (∀ p : Int,
      (((List.insertionSort pageLE starts).headD ("", 0)).2 ≤ p ∧ p ≤ last) ↔
        ∃ r ∈ map_starts_to_ranges starts last, r.2.1 ≤ p ∧ p ≤ r.2.2) := by
  have hperm := List.perm_insertionSort pageLE starts
  have hstrict := sorted_starts_strict starts h1
  have hbS : ∀ x ∈ List.insertionSort pageLE starts, x.2 ≤ last :=
    fun x hx => h2 x (hperm.mem_iff.mp hx)
  have hSne := insertionSort_ne_nil starts h0
  obtain ⟨hA, hB, hC, hD, -⟩ :=
    rangesOf_spec last (List.insertionSort pageLE starts) hstrict hbS
  refine ⟨?_, hB, hC, fun p => hD p hSne⟩
  have hlen := congrArg List.length hA
  rw [List.length_map] at hlen
  rw [map_starts_to_ranges, hlen, hperm.length_eq]

/-- C2 witness: the mapper applied to two distinct start pages below the
last printed page. -/
theorem C2_witness :
    (([("1 Intro", 3), ("2 Basics", 20)] : List (String × Int)) ≠ [] ∧
      (([("1 Intro", 3), ("2 Basics", 20)] : List (String × Int)).map (fun x => x.2)).Nodup ∧
      (∀ x ∈ ([("1 Intro", 3), ("2 Basics", 20)] : List (String × Int)), x.2 ≤ (40 : Int))) ∧
    ((map_starts_to_ranges [("1 Intro", 3), ("2 Basics", 20)] 40).length =
        ([("1 Intro", 3), ("2 Basics", 20)] : List (String × Int)).length ∧
      (∀ r ∈ map_starts_to_ranges [("1 Intro", 3), ("2 Basics", 20)] 40, r.2.1 ≤ r.2.2) ∧
      (map_starts_to_ranges [("1 Intro", 3), ("2 Basics", 20)] 40).Chain'
        (fun a b => a.2.2 < b.2.1) ∧
      (∀ p : Int,
        (((List.insertionSort pageLE [("1 Intro", 3), ("2 Basics", 20)]).headD ("", 0)).2 ≤ p ∧
            p ≤ 40) ↔
          ∃ r ∈ map_starts_to_ranges [("1 Intro", 3), ("2 Basics", 20)] 40,
            r.2.1 ≤ p ∧ p ≤ r.2.2)) :=
  ⟨⟨by decide, by decide, by decide⟩,
    C2_range_mapper [("1 Intro", 3), ("2 Basics", 20)] 40 (by decide) (by decide) (by decide)⟩

/-! ### C10: last chapter projection (amended) -/

/-- C10 (amended): when every chapter's printed start page is at most
total − offset (so that the mapper drops no entry; the counterexample shows
the claim fails otherwise) and the chapter list is nonempty with distinct
start pages, the final projected range ends exactly at the total physical
page count, and the splitter's validation can reject it only because of
`file_start < 1` — never because of `file_end > total_pages`. -/
theorem C10_last_chapter (starts : List (String × Int)) (off : Int) (total : Nat)
    (h0 : starts ≠ []) (h1 : (starts.map (fun x => x.2)).Nodup)
    (h2 : ∀ x ∈ starts, x.2 ≤ (total : Int) - off) :
    ∃ r, (file_chapter_map starts off total).getLast? = some r ∧
      r.2.2 = (total : Int) ∧
      (invalid_range (total : Int) r.2.1 r.2.2 = true ↔ r.2.1 < 1) := by
  have hperm := List.perm_insertionSort pageLE starts
  have hstrict := sorted_starts_strict starts h1
  have hbS : ∀ x ∈ List.insertionSort pageLE starts, x.2 ≤ (total : Int) - off :=
    fun x hx => h2 x (hperm.mem_iff.mp hx)
  have hSne := insertionSort_ne_nil starts h0
  obtain ⟨-, hB, -, -, hE⟩ :=
    rangesOf_spec ((total : Int) - off) (List.insertionSort pageLE starts) hstrict hbS
  obtain ⟨r0, hr0last, hr0end⟩ := hE hSne
  have hr0mem : r0 ∈ rangesOf ((total : Int) - off) (List.insertionSort pageLE starts) :=
    List.mem_of_mem_getLast? (Option.mem_def.mpr hr0last)
  have hr0b := hB r0 hr0mem
  refine ⟨(r0.1, r0.2.1 + off, r0.2.2 + off), ?_, ?_, ?_⟩
  · have hfc : file_chapter_map starts off total =
        (rangesOf ((total : Int) - off) (List.insertionSort pageLE starts)).map
          (fun r => (r.1, r.2.1 + off, r.2.2 + off)) := rfl
    rw [hfc, List.getLast?_map, hr0last]
    rfl
  · simp only
    omega
  · simp only [invalid_range, Bool.or_eq_true, decide_eq_true_eq]
    omega

/-- C10 witness: the end-to-end scenario of the specification — starts 3 and
20, offset 24, 64 physical pages — where the final projected range ends
exactly at page 64. -/
theorem C10_witness :
    (([("1 Intro", 3), ("2 Basics", 20)] : List (String × Int)) ≠ [] ∧
      (([("1 Intro", 3), ("2 Basics", 20)] : List (String × Int)).map (fun x => x.2)).Nodup ∧
      (∀ x ∈ ([("1 Intro", 3), ("2 Basics", 20)] : List (String × Int)),
        x.2 ≤ ((64 : Nat) : Int) - 24)) ∧
    (∃ r, (file_chapter_map [("1 Intro", 3), ("2 Basics", 20)] 24 64).getLast? = some r ∧
      r.2.2 = ((64 : Nat) : Int) ∧
      (invalid_range ((64 : Nat) : Int) r.2.1 r.2.2 = true ↔ r.2.1 < 1)) :=
  ⟨⟨by decide, by decide, by decide⟩,
    C10_last_chapter [("1 Intro", 3), ("2 Basics", 20)] 24 64 (by decide) (by decide)
      (by decide)⟩


theorem addTocMatch_step (processed : List TocMatch) (acc : List (String × Int)) (m : TocMatch)
    (hnd : (acc.map Prod.fst).Nodup)
    (hfind : ∀ e ∈ acc, ∃ m', processed.find?
        (fun x => toc_keep x && (toc_key x == e.1)) = some m' ∧ m'.page = e.2)
    (hnone : ∀ k, k ∉ acc.map Prod.fst →
        processed.find? (fun x => toc_keep x && (toc_key x == k)) = none) :
    ((addTocMatch acc m).map Prod.fst).Nodup ∧
    (∀ e ∈ addTocMatch acc m, ∃ m', (processed ++ [m]).find?
        (fun x => toc_keep x && (toc_key x == e.1)) = some m' ∧ m'.page = e.2) ∧
    (∀ k, k ∉ (addTocMatch acc m).map Prod.fst →
        (processed ++ [m]).find? (fun x => toc_keep x && (toc_key x == k)) = none) := by
  by_cases hkeep : toc_keep m = true
  · by_cases hnew : acc.all (fun e => e.1 ≠ toc_key m) = true
    · have hacc : addTocMatch acc m = acc ++ [(toc_key m, m.page)] := by
        rw [addTocMatch, hkeep, hnew]
        rfl
      have hknot : toc_key m ∉ acc.map Prod.fst := by
        intro hmem
        obtain ⟨e, he, heq⟩ := List.mem_map.mp hmem
        have hall := List.all_eq_true.mp hnew e he
        simp only [ne_eq, decide_eq_true_eq] at hall
        exact hall heq
      refine ⟨?_, ?_, ?_⟩
      · rw [hacc, List.map_append, List.nodup_append]
        refine ⟨hnd, by simp, ?_⟩
        intro a ha
        simp only [List.map_cons, List.map_nil, List.mem_cons, List.not_mem_nil,
          or_false]
        intro hc
        rw [hc] at ha
        exact hknot ha
      · intro e he
        rw [hacc] at he
        rcases List.mem_append.mp he with he | he
        · obtain ⟨m', hm', hp⟩ := hfind e he
          refine ⟨m', ?_, hp⟩
          rw [List.find?_append, hm']
          rfl
        · have he' : e = (toc_key m, m.page) := by simpa using he
          subst he'
          refine ⟨m, ?_, rfl⟩
          rw [List.find?_append, hnone (toc_key m) hknot]
          simp [List.find?_cons, hkeep]
      · intro k hk
        rw [hacc, List.map_append] at hk
        simp only [List.mem_append, List.map_cons, List.map_nil, List.mem_cons,
          List.not_mem_nil, or_false] at hk
        push_neg at hk
        obtain ⟨hk1, hk2⟩ := hk
        rw [List.find?_append, hnone k hk1]
        have hne : (toc_key m == k) = false := by
          simp only [beq_eq_false_iff_ne, ne_eq]
          exact fun hc => hk2 hc.symm
        simp [List.find?_cons, hne]
    · rw [Bool.not_eq_true] at hnew
      have hacc : addTocMatch acc m = acc := by
        rw [addTocMatch, hnew, Bool.and_false]
        rfl
      have hkmem : toc_key m ∈ acc.map Prod.fst := by
        by_contra hknot
        have hall : acc.all (fun e => e.1 ≠ toc_key m) = true := by
          rw [List.all_eq_true]
          intro e he
          simp only [ne_eq, decide_eq_true_eq]
          intro hc
          exact hknot (List.mem_map.mpr ⟨e, he, hc⟩)
        rw [hall] at hnew
        simp at hnew
      rw [hacc]
      refine ⟨hnd, ?_, ?_⟩
      · intro e he
        obtain ⟨m', hm', hp⟩ := hfind e he
        refine ⟨m', ?_, hp⟩
        rw [List.find?_append, hm']
        rfl
      · intro k hk
        rw [List.find?_append, hnone k hk]
        have hne : (toc_key m == k) = false := by
          simp only [beq_eq_false_iff_ne, ne_eq]
          exact fun hc => hk (hc ▸ hkmem)
        simp [List.find?_cons, hne]
  · rw [Bool.not_eq_true] at hkeep
    have hacc : addTocMatch acc m = acc := by
      simp [addTocMatch, hkeep]
    rw [hacc]
    refine ⟨hnd, ?_, ?_⟩
    · intro e he
      obtain ⟨m', hm', hp⟩ := hfind e he
      refine ⟨m', ?_, hp⟩
      rw [List.find?_append, hm']
      rfl
    · intro k hk
      rw [List.find?_append, hnone k hk]
      simp [List.find?_cons, hkeep]

theorem extract_fold_invariant :
    ∀ (ms : List TocMatch) (processed : List TocMatch) (acc : List (String × Int)),
      (acc.map Prod.fst).Nodup →
      (∀ e ∈ acc, ∃ m', processed.find?
          (fun x => toc_keep x && (toc_key x == e.1)) = some m' ∧ m'.page = e.2) →
      (∀ k, k ∉ acc.map Prod.fst →
          processed.find? (fun x => toc_keep x && (toc_key x == k)) = none) →
      (((ms.foldl addTocMatch acc).map Prod.fst).Nodup ∧
        (∀ e ∈ ms.foldl addTocMatch acc, ∃ m', (processed ++ ms).find?
            (fun x => toc_keep x && (toc_key x == e.1)) = some m' ∧ m'.page = e.2) ∧
        (∀ k, k ∉ (ms.foldl addTocMatch acc).map Prod.fst →
            (processed ++ ms).find? (fun x => toc_keep x && (toc_key x == k)) = none)) := by
  intro ms
  induction ms with
  | nil =>
    intro processed acc hnd hfind hnone
    simp only [List.foldl_nil, List.append_nil]
    exact ⟨hnd, hfind, hnone⟩
  | cons m ms ih =>
    intro processed acc hnd hfind hnone
    obtain ⟨hnd', hfind', hnone'⟩ := addTocMatch_step processed acc m hnd hfind hnone
    have h := ih (processed ++ [m]) (addTocMatch acc m) hnd' hfind' hnone'
    have hms : processed ++ [m] ++ ms = processed ++ m :: ms := by
      rw [List.append_assoc]
      rfl
    rw [hms] at h
    simp only [List.foldl_cons]
    exact h

theorem extractCore_eq_flatten (pages : List (List TocMatch)) :
    extractCore pages = pages.flatten.foldl addTocMatch [] := by
  have haux : ∀ (pages : List (List TocMatch)) (acc : List (String × Int)),
      pages.foldl (fun acc ms => ms.foldl addTocMatch acc) acc =
        pages.flatten.foldl addTocMatch acc := by
    intro pages
    induction pages with
    | nil => intro acc; rfl
    | cons ms pages ih =>
      intro acc
      rw [List.foldl_cons, ih, List.flatten_cons, List.foldl_append]
  exact haux pages []


theorem C4_toc_extraction :
    ∀ (pages : List (List TocMatch)) (n : Nat) (out : List (String × Int)),
      (extract_chapters_from_toc (.ok pages) n).1 = some out →
      (∀ e ∈ out, ∃ m, ((pages.take n).flatten.find?
          (fun x => toc_keep x && (toc_key x == e.1))) = some m ∧
        toc_key m = e.1 ∧ 5 < (trimStr m.title).length ∧ 1 < m.page ∧ m.page = e.2) ∧
      (out.map Prod.fst).Nodup ∧
      List.Sorted pageLE out ∧ out ≠ [] := by
  intro pages n out hout
  by_cases hemp : (extractCore (pages.take n)).isEmpty = true
  · rw [extract_chapters_from_toc] at hout
    simp [hemp] at hout
  · rw [extract_chapters_from_toc] at hout
    simp only [hemp, Bool.false_eq_true, if_false, Option.some.injEq] at hout
    have hout_eq : out = List.insertionSort pageLE (extractCore (pages.take n)) := hout.symm
    have hinv := extract_fold_invariant ((pages.take n).flatten) [] []
      (by simp) (by intro e he; simp at he) (by intro k _; rfl)
    rw [List.nil_append, ← extractCore_eq_flatten] at hinv
    obtain ⟨hnd, hfind, -⟩ := hinv
    have hperm := List.perm_insertionSort pageLE (extractCore (pages.take n))
    refine ⟨?_, ?_, ?_, ?_⟩
    · intro e he
      have he' : e ∈ extractCore (pages.take n) := by
        rw [hout_eq] at he
        exact (List.mem_insertionSort pageLE).mp he
      obtain ⟨m, hm, hp⟩ := hfind e he'
      have hpred := List.find?_some hm
      simp only [Bool.and_eq_true, beq_iff_eq] at hpred
      obtain ⟨hkeep, hkey⟩ := hpred
      simp only [toc_keep, Bool.and_eq_true, decide_eq_true_eq] at hkeep
      exact ⟨m, hm, hkey, hkeep.1, hkeep.2, hp⟩
    · rw [hout_eq]
      exact ((hperm.map Prod.fst).nodup_iff).mpr hnd
    · rw [hout_eq]
      exact List.sorted_insertionSort pageLE _
    · rw [hout_eq]
      intro hc
      have hl := hperm.length_eq
      rw [hc] at hl
      have hnil : extractCore (pages.take n) = [] := List.eq_nil_of_length_eq_zero hl.symm
      rw [hnil] at hemp
      exact hemp rfl

theorem C4_witness :
    (extract_chapters_from_toc
        (.ok [[⟨"1", "Introduction", 3⟩, ⟨"1", "Introduction", 7⟩, ⟨"2", "Basics here", 20⟩]])
        15).1 = some [("1 Introduction", 3), ("2 Basics here", 20)] ∧
    ((∀ e ∈ ([("1 Introduction", 3), ("2 Basics here", 20)] : List (String × Int)), ∃ m,
        ((([[⟨"1", "Introduction", 3⟩, ⟨"1", "Introduction", 7⟩,
            ⟨"2", "Basics here", 20⟩]] : List (List TocMatch)).take 15).flatten.find?
          (fun x => toc_keep x && (toc_key x == e.1))) = some m ∧
        toc_key m = e.1 ∧ 5 < (trimStr m.title).length ∧ 1 < m.page ∧ m.page = e.2) ∧
      (([("1 Introduction", 3), ("2 Basics here", 20)] : List (String × Int)).map
        Prod.fst).Nodup ∧
      List.Sorted pageLE ([("1 Introduction", 3), ("2 Basics here", 20)] : List (String × Int)) ∧
      ([("1 Introduction", 3), ("2 Basics here", 20)] : List (String × Int)) ≠ []) :=
  ⟨by decide,
    C4_toc_extraction
      [[⟨"1", "Introduction", 3⟩, ⟨"1", "Introduction", 7⟩, ⟨"2", "Basics here", 20⟩]] 15
      [("1 Introduction", 3), ("2 Basics here", 20)] (by decide)⟩

end PdfSplitter
